import Mathlib

/-!
# Verification of the ovenctl MODBus codec (src/tools/modbus.c, bits.c)

A shallow embedding of the message-framing and codec layer of the ovenctl
repository.  C machine integers become `Nat` with explicit `% 2^w` masking
where the C type forces truncation; a `mb_msg` (a fixed-capacity byte array
plus a logical length) becomes a structure holding the length and the byte
store as a function from index to byte; fallible C functions returning an
`int` error code and mutating their arguments become Lean functions
returning the error code together with the new buffer state and the values
written through out-pointers (`Option` marks whether the C code wrote the
out-parameter on that path).  The float codec, which in C works on IEEE-754
single-precision values via `frexpf`/`ldexpf`/`floor`, is embedded over `ℚ`:
on values exactly representable in single precision every C operation
involved is exact, so the rational model coincides with the C computation
there.
-/

/-- `MB_MAXMSGLEN` from modbus.h: capacity of a message buffer. -/
def MB_MAXMSGLEN : Nat := 256

/-- `MB_SLAVEADDR` from modbus.h. -/
def MB_SLAVEADDR : Nat := 0x01

/-- `MB_FN_READN` from modbus.h. -/
def MB_FN_READN : Nat := 0x03

/-- `MB_FN_READN_ALT` from modbus.h. -/
def MB_FN_READN_ALT : Nat := 0x04

/-- `MB_FN_WRITE` from modbus.h. -/
def MB_FN_WRITE : Nat := 0x06

/-- `MB_FN_WRITEN` from modbus.h. -/
def MB_FN_WRITEN : Nat := 0x10

/-- `mb_is_fn_readn` macro from modbus.h. -/
def mb_is_fn_readn (fn : Nat) : Bool := fn == MB_FN_READN || fn == MB_FN_READN_ALT

-- Error codes from mberr.h
/-- `MB_EOK` (success). -/
def MB_EOK : Nat := 0

/-- `MB_ENOBUF`. -/
def MB_ENOBUF : Nat := 1

/-- `MB_EMLONG`. -/
def MB_EMLONG : Nat := 2

/-- `MB_EDLONG`. -/
def MB_EDLONG : Nat := 3

/-- `MB_EBADBUF`. -/
def MB_EBADBUF : Nat := 4

/-- `MB_EMERR`. -/
def MB_EMERR : Nat := 5

/-- `MB_EMSHORT`. -/
def MB_EMSHORT : Nat := 6

/-- `MB_EINVAL`. -/
def MB_EINVAL : Nat := 7

/-- `MB_EE_ADDR` ("invalid parameter address", device error 0x02 ORed with 0x80). -/
def MB_EE_ADDR : Nat := 0x82

/-- The `mb_msg` struct of modbus.h: a logical length plus the byte store.
The C field `unsigned char data[MB_MAXMSGLEN]` is embedded as a function
from index to stored value; reads go through `mb_msg.getByte`, which
truncates to a byte exactly as the `unsigned char` array cell does. -/
structure mb_msg where
  len : Nat
  data : Nat → Nat

/-- Reading `buf->data[i]`: an `unsigned char` cell always holds a value `< 256`. -/
def mb_msg.getByte (m : mb_msg) (i : Nat) : Nat := m.data i % 256

/-- Writing `buf->data[i] = v`: the store into an `unsigned char` cell
truncates the stored value mod 256. -/
def mb_msg.setByte (m : mb_msg) (i v : Nat) : mb_msg :=
  { m with data := fun j => if j = i then v % 256 else m.data j }

/-- `write_be16` from bits.c, applied at offset `off` of a message's data
array: `buf[0]=(value>>8)&0xFF; buf[1]=value&0xFF`.  The C parameter is a
`uint16_t`, so the incoming value is first truncated mod 2^16. -/
def write_be16 (m : mb_msg) (off v : Nat) : mb_msg :=
  let v := v % 65536
  let m := m.setByte off ((v >>> 8) &&& 0xFF)
  m.setByte (off + 1) (v &&& 0xFF)

/-- `read_be16` from bits.c at offset `off`:
`((data[0]&0xFF)<<8)|(data[1]&0xFF)`. -/
def read_be16 (m : mb_msg) (off : Nat) : Nat :=
  ((m.getByte off &&& 0xFF) <<< 8) ||| (m.getByte (off + 1) &&& 0xFF)

/-- `mb_setbuflen` from modbus.c: sets `buf->len` to `len` after checking
`len <= MB_MAXMSGLEN`; otherwise `MB_EMLONG` and no change.  (The
`!buf → MB_ENOBUF` branch of the C code has no counterpart: the embedding
has no null references.) -/
def mb_setbuflen (buf : mb_msg) (len : Nat) : Nat × mb_msg :=
  if len ≤ MB_MAXMSGLEN then (MB_EOK, { buf with len := len })
  else (MB_EMLONG, buf)

/-- `mb_respbuflen` from modbus.c: sets `buf->len` to `len` if
`len <= buf->len`, delegating to `mb_setbuflen`; otherwise `MB_EMSHORT`. -/
def mb_respbuflen (buf : mb_msg) (len : Nat) : Nat × mb_msg :=
  if buf.len < len then (MB_EMSHORT, buf)
  else mb_setbuflen buf len

/-- One round of the CRC16 inner bit loop of `mb_crc16` (modbus.c):
`sbit = crc&1; crc >>= 1; if (sbit) crc ^= 0xA001`. -/
def crcRound (crc : Nat) : Nat :=
  if crc % 2 = 1 then (crc / 2) ^^^ 0xA001 else crc / 2

/-- `n` iterations of `crcRound` (the C code runs the bit loop 8 times per byte). -/
def crcRounds : Nat → Nat → Nat
  | 0, crc => crc
  | n + 1, crc => crcRounds n (crcRound crc)

/-- One iteration of the outer byte loop of `mb_crc16`:
`crc ^= buf->data[i]` followed by the 8-round bit loop. -/
def crc16_byte (crc b : Nat) : Nat := crcRounds 8 (crc ^^^ b)

/-- The final byte swap of `mb_crc16`: `crc = (crc>>8)|(crc<<8)` on a
`uint16_t` (the assignment truncates mod 2^16). -/
def mbSwap (crc : Nat) : Nat := ((crc >>> 8) ||| (crc <<< 8)) % 65536

/-- `mb_crc16` from modbus.c: CRC-16 with register initialised to 0xFFFF,
over bytes `0 .. buf->len-3`, followed by the byte swap.  (In C the result
is stored through an out-pointer and the return value is an error code that
is nonzero only for a null buffer; the embedding returns the checksum.) -/
def mb_crc16 (buf : mb_msg) : Nat :=
  mbSwap ((List.range (buf.len - 2)).foldl (fun crc i => crc16_byte crc (buf.getByte i)) 0xffff)

/-- `mb_apply_crc16` from modbus.c: computes the checksum and writes it in
the last two bytes via `write_be16`.  (Its C error paths fire only on a
null buffer, so the embedding returns just the updated message.) -/
def mb_apply_crc16 (buf : mb_msg) : mb_msg :=
  write_be16 buf (buf.len - 2) (mb_crc16 buf)

/-- `mb_ct_req_readn` from modbus.c. -/
def mb_ct_req_readn (buf : mb_msg) (addr words : Nat) : Nat × mb_msg :=
  if words > 80 then (MB_EDLONG, buf) else
  match mb_setbuflen buf 8 with
  | (e, buf) =>
    if e ≠ MB_EOK then (e, buf) else
    let buf := buf.setByte 0 MB_SLAVEADDR
    let buf := buf.setByte 1 MB_FN_READN
    let buf := write_be16 buf 2 addr
    let buf := write_be16 buf 4 words
    (MB_EOK, mb_apply_crc16 buf)

/-- `mb_ct_req_write` from modbus.c. -/
def mb_ct_req_write (buf : mb_msg) (addr val : Nat) : Nat × mb_msg :=
  match mb_setbuflen buf 8 with
  | (e, buf) =>
    if e ≠ MB_EOK then (e, buf) else
    let buf := buf.setByte 0 MB_SLAVEADDR
    let buf := buf.setByte 1 MB_FN_WRITE
    let buf := write_be16 buf 2 addr
    let buf := write_be16 buf 4 val
    (MB_EOK, mb_apply_crc16 buf)

/-- `mb_ct_req_writen` from modbus.c.  The `uint16_t *vals` array becomes
an `Option`al function from index to value (`none` embeds a null pointer);
each `vals[i]` is a `uint16_t`, truncated by `write_be16`. -/
def mb_ct_req_writen (buf : mb_msg) (addr words : Nat) (vals : Option (Nat → Nat)) :
    Nat × mb_msg :=
  match vals with
  | none => (MB_EINVAL, buf)
  | some vals =>
    if words > 80 then (MB_EDLONG, buf) else
    match mb_setbuflen buf (9 + (words <<< 1)) with
    | (e, buf) =>
      if e ≠ MB_EOK then (e, buf) else
      let buf := buf.setByte 0 MB_SLAVEADDR
      let buf := buf.setByte 1 MB_FN_WRITEN
      let buf := write_be16 buf 2 addr
      let buf := write_be16 buf 4 words
      let buf := buf.setByte 6 (words <<< 1)
      let buf := (List.range words).foldl
        (fun b i => write_be16 b (7 + (i <<< 1)) (vals i)) buf
      (MB_EOK, mb_apply_crc16 buf)

/-- Flipping bit `k` of byte `pos` of a message (the single-bit corruption
considered by the checksum error-detection property). -/
def flipBit (m : mb_msg) (pos k : Nat) : mb_msg :=
  m.setByte pos (m.getByte pos ^^^ (1 <<< k))

-- Reference CRC, written from the spec's words (§4.3) rather than from the
-- source, to compare against `mb_crc16` for the refinement claim.

/-- Reference formulation, from the spec: one bit round — test the
register's low bit, shift right by one, XOR with 0xA001 if the tested bit
was set. -/
def refRound (r : Nat) : Nat :=
  if r % 2 = 1 then (r / 2) ^^^ 0xA001 else r / 2

/-- Reference formulation, from the spec: the 8 bit rounds a byte undergoes. -/
def refRounds8 (r : Nat) : Nat :=
  refRound (refRound (refRound (refRound (refRound (refRound (refRound (refRound r)))))))

/-- Reference formulation, from the spec: per byte, XOR the byte into the
low byte of the register, then run the 8 bit rounds; process the bytes in
order. -/
def refCrcList : List Nat → Nat → Nat
  | [], r => r
  | b :: rest, r => refCrcList rest (refRounds8 (r ^^^ b))

/-- Reference formulation, from the spec: swap the register's high and low
bytes. -/
def refSwap (r : Nat) : Nat := (r % 256) * 256 + r / 256

/-- Reference reflected CRC-16, from the spec: initial register 0xFFFF,
process every covered byte, then swap. -/
def refCrc16 (bytes : List Nat) : Nat := refSwap (refCrcList bytes 0xFFFF)

/-- The covered region of a message: every byte except the trailing two. -/
def coveredBytes (m : mb_msg) : List Nat :=
  (List.range (m.len - 2)).map m.getByte

/-- `2^e` as a rational, for an integer `e` (the exact value `ldexp`-style
scaling multiplies by). -/
def pow2 (e : Int) : ℚ :=
  if 0 ≤ e then ((2 ^ e.toNat : Nat) : ℚ) else 1 / ((2 ^ (-e).toNat : Nat) : ℚ)

/-- Modelled from the spec (§4.4) and the C standard library: `frexpf`-style
normalisation of a positive rational into `fm ∈ [1/2, 1)` and `e` with
`q = fm * 2^e`.  The fuel bounds the exponent search; 160 iterations cover
every finite single-precision magnitude (whose binary exponent lies in
[-148, 128]).  On floats the C computation is exact, so this rational
version agrees with it. -/
def frexpQ : Nat → ℚ → Int → ℚ × Int
  | 0, q, e => (q, e)
  | fuel + 1, q, e =>
    if q < 1 / 2 then frexpQ fuel (2 * q) (e - 1)
    else if 1 ≤ q then frexpQ fuel (q / 2) (e + 1)
    else (q, e)

/-- Modelled from the spec and the C standard library: `frexpf(val, &e)`,
returning mantissa and exponent (`(0,0)` for zero, as `frexpf` does).  Like
`frexpf`, the mantissa keeps the sign of the input. -/
def floatFrexp (q : ℚ) : ℚ × Int :=
  if q = 0 then (0, 0)
  else
    let fe := frexpQ 160 |q| 0
    (if q < 0 then -fe.1 else fe.1, fe.2)

/-- The `int8_t` conversion in `mb_read_float`: two's-complement wrap of an
`int` value into [-128, 127]. -/
def int8wrap (x : Int) : Int := (x + 128) % 256 - 128

/-- The conversion of the (floored, hence integral) floating value to
`uint32_t` in `mb_write_float`.  For a negative value this conversion is
undefined behaviour in ISO C; mainstream compilers on x86-64 and ARM
produce the two's-complement wrap modelled here. -/
def uint32OfFloat (x : Int) : Nat := (x % (4294967296 : Int)).toNat

/-- `mb_write_float` from modbus.c, over exact rationals: the sign bit, the
`frexpf` decomposition `val = fm * 2^e` (with `fm` signed, as `frexpf`
returns it), the biased exponent `e + 126`, the mantissa word
`(uint32_t)floor(fm * (1<<24))`, and the four shuffled output bytes.
The C arithmetic (`frexpf`, the promotion of `fm`, the product `fm*(1<<24)`
and `floor`) is exact on every single-precision input, so the rational
model coincides with the C function there.  `e>>1` and `e&1` act on the C
`int` exponent, hence the `Int` shift and mask. -/
def mb_write_float (val : ℚ) : List Nat :=
  let s := val < 0
  let fe := floatFrexp val
  let e : Int := fe.2 + 126
  let m : Nat := uint32OfFloat (Int.floor (fe.1 * ((2 ^ 24 : Nat) : ℚ)))
  [ (m >>> 8) &&& 0xFF,
    m &&& 0xFF,
    (if s then 0x80 else 0) ||| ((Int.land (e >>> (1 : Int)) 0x7F).toNat),
    (((Int.land e 1).toNat) <<< 7) ||| ((m >>> 16) &&& 0x7F) ]

/-- `mb_read_float` from modbus.c, over exact rationals: sign from the high
bit of byte 2, biased exponent reassembled from bytes 2 and 3 and debiased
through the `int8_t` cast, mantissa with the implicit leading bit
reinserted, and `ldexpf(m, e-23)` as exact scaling by `2^(e-23)`. -/
def mb_read_float (b : List Nat) : ℚ :=
  let b0 := b.getD 0 0
  let b1 := b.getD 1 0
  let b2 := b.getD 2 0
  let b3 := b.getD 3 0
  let s := b2 &&& 0x80 ≠ 0
  let e : Int := int8wrap (((((b2 &&& 0x7F) <<< 1) ||| ((b3 >>> 7) &&& 1)) : Int) - 127)
  let m : Nat := (1 <<< 23) ||| ((b3 &&& 0x7F) <<< 16) ||| (b0 <<< 8) ||| b1
  let f : ℚ := (m : ℚ) * pow2 (e - 23)
  if s then -f else f

/-- `mb_pa_resp_checkcrc` from modbus.c. -/
def mb_pa_resp_checkcrc (buf : mb_msg) : Nat :=
  if buf.len < 2 then MB_EMSHORT else
  let crc := mb_crc16 buf
  let read_crc := read_be16 buf (buf.len - 2)
  if crc ≠ read_crc then MB_EBADBUF else MB_EOK

/-- `mb_pa_resp_fn` from modbus.c.  The second component is the value the C
code left in `*fn` (`none` when that path never writes it). -/
def mb_pa_resp_fn (buf : mb_msg) : Nat × Option Nat :=
  if buf.len < 2 then (MB_EMSHORT, none) else
  let val := buf.getByte 1
  if val &&& 0x80 ≠ 0 then
    let val := val &&& 0x7F
    if buf.len < 3 then (MB_EMSHORT, some val) else
    let ec := buf.getByte 2
    if ec &&& 0x80 ≠ 0 then (MB_EMERR, some val)
    else (ec ||| 0x80, some val)
  else (MB_EOK, some val)

/-- `mb_pa_resp_readn` from modbus.c.  Result: error code, the buffer (whose
length the parse may shrink), the value left in `*awords`, and the list of
words the copy loop stored in `vals[0..min(words,rwords))`. -/
def mb_pa_resp_readn (buf : mb_msg) (words : Nat) : Nat × mb_msg × Option Nat × List Nat :=
  match mb_pa_resp_fn buf with
  | (e, fnOut) =>
    if e ≠ MB_EOK then (e, buf, none, []) else
    if ¬ mb_is_fn_readn (fnOut.getD 0) then (MB_EBADBUF, buf, none, []) else
    if buf.len < 3 then (MB_EMSHORT, buf, none, []) else
    let nbytes := buf.getByte 2
    match mb_respbuflen buf (nbytes + 5) with
    | (e, buf) =>
      if e ≠ MB_EOK then (e, buf, none, []) else
      let ecrc := mb_pa_resp_checkcrc buf
      if ecrc ≠ MB_EOK then (ecrc, buf, none, []) else
      if nbytes &&& 1 ≠ 0 then (MB_EBADBUF, buf, none, []) else
      let rwords := nbytes / 2
      let vals := (List.range (min words rwords)).map (fun i => read_be16 buf (3 + (i <<< 1)))
      if words < rwords then (MB_EDLONG, buf, some rwords, vals)
      else (MB_EOK, buf, some rwords, vals)

/-- `mb_pa_resp_write` from modbus.c.  Result: error code, the buffer, and
the values left in `*addr` and `*val`. -/
def mb_pa_resp_write (buf : mb_msg) : Nat × mb_msg × Option Nat × Option Nat :=
  match mb_pa_resp_fn buf with
  | (e, fnOut) =>
    if e ≠ MB_EOK then (e, buf, none, none) else
    if fnOut.getD 0 ≠ MB_FN_WRITE then (MB_EBADBUF, buf, none, none) else
    match mb_respbuflen buf 8 with
    | (e, buf) =>
      if e ≠ MB_EOK then (e, buf, none, none) else
      let ecrc := mb_pa_resp_checkcrc buf
      if ecrc ≠ MB_EOK then (ecrc, buf, none, none) else
      (MB_EOK, buf, some (read_be16 buf 2), some (read_be16 buf 4))

/-- `mb_pa_resp_writen` from modbus.c.  Result: error code, the buffer, and
the values left in `*addr` and `*awords`. -/
def mb_pa_resp_writen (buf : mb_msg) : Nat × mb_msg × Option Nat × Option Nat :=
  match mb_pa_resp_fn buf with
  | (e, fnOut) =>
    if e ≠ MB_EOK then (e, buf, none, none) else
    if fnOut.getD 0 ≠ MB_FN_WRITEN then (MB_EBADBUF, buf, none, none) else
    match mb_respbuflen buf 8 with
    | (e, buf) =>
      if e ≠ MB_EOK then (e, buf, none, none) else
      let ecrc := mb_pa_resp_checkcrc buf
      if ecrc ≠ MB_EOK then (ecrc, buf, none, none) else
      (MB_EOK, buf, some (read_be16 buf 2), some (read_be16 buf 4))

-- ## Byte-level helper lemmas

theorem getByte_lt (m : mb_msg) (i : Nat) : m.getByte i < 256 :=
  Nat.mod_lt _ (by norm_num)

theorem len_setByte (m : mb_msg) (i v : Nat) : (m.setByte i v).len = m.len := rfl

theorem getByte_setByte (m : mb_msg) (i v j : Nat) :
    (m.setByte i v).getByte j = if j = i then v % 256 else m.getByte j := by
  unfold mb_msg.setByte mb_msg.getByte
  dsimp only
  split <;> omega

theorem and_255_eq_mod (x : Nat) : x &&& 0xFF = x % 256 := by
  have h := Nat.and_pow_two_sub_one_eq_mod x 8
  norm_num at h
  exact h

theorem and_255_of_lt (x : Nat) (h : x < 256) : x &&& 0xFF = x := by
  rw [and_255_eq_mod]
  omega

theorem lor_byte_eq_add (a b : Nat) (hb : b < 256) : (a <<< 8) ||| b = a * 256 + b := by
  have hb2 : b < 2 ^ 8 := by omega
  rw [Nat.shiftLeft_eq, Nat.mul_comm a (2 ^ 8), ← Nat.mul_add_lt_is_or hb2 a]

theorem len_write_be16 (m : mb_msg) (off v : Nat) : (write_be16 m off v).len = m.len := rfl

theorem getByte_write_be16 (m : mb_msg) (off v j : Nat) :
    (write_be16 m off v).getByte j =
      if j = off + 1 then (v % 65536) % 256
      else if j = off then (v % 65536) / 256
      else m.getByte j := by
  unfold write_be16
  dsimp only
  rw [getByte_setByte, getByte_setByte]
  have h1 : ((v % 65536) >>> 8) &&& 0xFF = (v % 65536) / 256 := by
    rw [and_255_eq_mod, Nat.shiftRight_eq_div_pow]
    norm_num
    omega
  have h2 : (v % 65536) &&& 0xFF = (v % 65536) % 256 := and_255_eq_mod _
  split
  · rw [h2]
    omega
  · split <;> [rw [h1]; rfl] <;> omega

theorem read_be16_eq (m : mb_msg) (off : Nat) :
    read_be16 m off = m.getByte off * 256 + m.getByte (off + 1) := by
  unfold read_be16
  rw [and_255_of_lt _ (getByte_lt m off), and_255_of_lt _ (getByte_lt m (off+1)),
    lor_byte_eq_add _ _ (getByte_lt m (off+1))]

theorem read_be16_lt (m : mb_msg) (off : Nat) : read_be16 m off < 65536 := by
  rw [read_be16_eq]
  have h1 := getByte_lt m off
  have h2 := getByte_lt m (off + 1)
  omega

theorem read_be16_write_be16 (m : mb_msg) (off v : Nat) :
    read_be16 (write_be16 m off v) off = v % 65536 := by
  rw [read_be16_eq, getByte_write_be16, getByte_write_be16]
  have : ¬ (off = off + 1) := by omega
  simp only [this, if_false, if_pos rfl, if_true]
  omega

-- ## CRC lemmas: bounds, injectivity, and the round-trip property

theorem crcRound_lt (c : Nat) (h : c < 65536) : crcRound c < 65536 := by
  unfold crcRound
  split
  · have h1 : c / 2 < 2 ^ 16 := by omega
    have h2 := Nat.xor_lt_two_pow h1 (show (0xA001 : Nat) < 2 ^ 16 by norm_num)
    norm_num at h2
    exact h2
  · omega

theorem crcRound_high_of_odd (c : Nat) (h : c < 65536) (ho : c % 2 = 1) :
    32768 ≤ crcRound c := by
  unfold crcRound
  rw [if_pos ho]
  have hlow : (c / 2).testBit 15 = false := Nat.testBit_lt_two_pow (by omega)
  have hbit : ((c / 2) ^^^ 0xA001).testBit 15 = true := by
    rw [Nat.testBit_xor, hlow]
    norm_num
    rfl
  have := Nat.testBit_implies_ge hbit
  norm_num at this
  exact this

theorem crcRound_low_of_even (c : Nat) (h : c < 65536) (he : c % 2 = 0) :
    crcRound c < 32768 := by
  unfold crcRound
  rw [if_neg (by omega)]
  omega

theorem crcRound_inj (a b : Nat) (ha : a < 65536) (hb : b < 65536)
    (h : crcRound a = crcRound b) : a = b := by
  rcases Nat.mod_two_eq_zero_or_one a with pa | pa <;>
    rcases Nat.mod_two_eq_zero_or_one b with pb | pb
  · have ha2 := h
    unfold crcRound at ha2
    rw [if_neg (by omega), if_neg (by omega)] at ha2
    omega
  · exfalso
    have h1 := crcRound_low_of_even a ha pa
    have h2 := crcRound_high_of_odd b hb pb
    omega
  · exfalso
    have h1 := crcRound_high_of_odd a ha pa
    have h2 := crcRound_low_of_even b hb pb
    omega
  · have ha2 := h
    unfold crcRound at ha2
    rw [if_pos pa, if_pos pb] at ha2
    have := Nat.xor_left_inj.mp ha2
    omega

theorem crcRounds_lt (n c : Nat) (h : c < 65536) : crcRounds n c < 65536 := by
  induction n generalizing c with
  | zero => exact h
  | succ k ih =>
    rw [crcRounds]
    exact ih _ (crcRound_lt c h)

theorem crcRounds_inj (n a b : Nat) (ha : a < 65536) (hb : b < 65536)
    (h : crcRounds n a = crcRounds n b) : a = b := by
  induction n generalizing a b with
  | zero => exact h
  | succ k ih =>
    rw [crcRounds, crcRounds] at h
    exact crcRound_inj a b ha hb (ih _ _ (crcRound_lt a ha) (crcRound_lt b hb) h)

theorem crc16_byte_lt (c b : Nat) (hc : c < 65536) (hb : b < 256) :
    crc16_byte c b < 65536 := by
  unfold crc16_byte
  apply crcRounds_lt
  have h2 := Nat.xor_lt_two_pow (show c < 2 ^ 16 by omega) (show b < 2 ^ 16 by omega)
  norm_num at h2
  exact h2

theorem crc16_byte_inj_acc (c c2 b : Nat) (hc : c < 65536) (hc2 : c2 < 65536) (hb : b < 256)
    (h : crc16_byte c b = crc16_byte c2 b) : c = c2 := by
  unfold crc16_byte at h
  have hx : c ^^^ b = c2 ^^^ b := by
    apply crcRounds_inj 8 _ _ _ _ h
    · have := Nat.xor_lt_two_pow (show c < 2 ^ 16 by omega) (show b < 2 ^ 16 by omega)
      norm_num at this
      exact this
    · have := Nat.xor_lt_two_pow (show c2 < 2 ^ 16 by omega) (show b < 2 ^ 16 by omega)
      norm_num at this
      exact this
  exact Nat.xor_left_inj.mp hx

theorem crc16_byte_inj_byte (c b b2 : Nat) (hc : c < 65536) (hb : b < 256) (hb2 : b2 < 256)
    (h : crc16_byte c b = crc16_byte c b2) : b = b2 := by
  unfold crc16_byte at h
  have hx : c ^^^ b = c ^^^ b2 := by
    apply crcRounds_inj 8 _ _ _ _ h
    · have := Nat.xor_lt_two_pow (show c < 2 ^ 16 by omega) (show b < 2 ^ 16 by omega)
      norm_num at this
      exact this
    · have := Nat.xor_lt_two_pow (show c < 2 ^ 16 by omega) (show b2 < 2 ^ 16 by omega)
      norm_num at this
      exact this
  exact Nat.xor_right_inj.mp hx

theorem crcFold_lt (l : List Nat) (c : Nat) (hc : c < 65536) (hl : ∀ x ∈ l, x < 256) :
    l.foldl crc16_byte c < 65536 := by
  induction l generalizing c with
  | nil => exact hc
  | cons h t ih =>
    rw [List.foldl_cons]
    exact ih _ (crc16_byte_lt c h hc (hl h (List.mem_cons_self _ _))) (fun x hx => hl x (List.mem_cons_of_mem h hx))

theorem crcFold_ne_acc (l : List Nat) (c c2 : Nat) (hc : c < 65536) (hc2 : c2 < 65536)
    (hl : ∀ x ∈ l, x < 256) (hne : c ≠ c2) :
    l.foldl crc16_byte c ≠ l.foldl crc16_byte c2 := by
  induction l generalizing c c2 with
  | nil => exact hne
  | cons h t ih =>
    rw [List.foldl_cons, List.foldl_cons]
    have hh : h < 256 := hl h (List.mem_cons_self _ _)
    apply ih _ _ (crc16_byte_lt c h hc hh) (crc16_byte_lt c2 h hc2 hh)
      (fun x hx => hl x (List.mem_cons_of_mem h hx))
    intro heq
    exact hne (crc16_byte_inj_acc c c2 h hc hc2 hh heq)

theorem crcFold_set_ne (l : List Nat) (pos b2 c : Nat) (hc : c < 65536)
    (hl : ∀ x ∈ l, x < 256) (hpos : pos < l.length) (hb2 : b2 < 256)
    (hne : b2 ≠ l.get ⟨pos, hpos⟩) :
    (l.set pos b2).foldl crc16_byte c ≠ l.foldl crc16_byte c := by
  induction l generalizing pos c with
  | nil => simp at hpos
  | cons h t ih =>
    have hh : h < 256 := hl h (List.mem_cons_self _ _)
    have ht : ∀ x ∈ t, x < 256 := fun x hx => hl x (List.mem_cons_of_mem h hx)
    cases pos with
    | zero =>
      rw [List.set_cons_zero, List.foldl_cons, List.foldl_cons]
      apply crcFold_ne_acc t _ _ (crc16_byte_lt c b2 hc hb2) (crc16_byte_lt c h hc hh) ht
      intro heq
      exact hne (crc16_byte_inj_byte c b2 h hc hb2 hh heq)
    | succ p =>
      rw [List.set_cons_succ, List.foldl_cons, List.foldl_cons]
      have hp : p < t.length := by simpa using hpos
      exact ih p _ (crc16_byte_lt c h hc hh) ht hp hne

theorem mbSwap_eq (c : Nat) (hc : c < 65536) : mbSwap c = (c % 256) * 256 + c / 256 := by
  unfold mbSwap
  have hdiv : c >>> 8 = c / 256 := by
    rw [Nat.shiftRight_eq_div_pow]
  have hb : c / 256 < 256 := by omega
  rw [Nat.lor_comm, hdiv, lor_byte_eq_add c _ hb]
  omega

theorem mbSwap_lt (c : Nat) : mbSwap c < 65536 := Nat.mod_lt _ (by norm_num)

theorem mbSwap_inj (c c2 : Nat) (hc : c < 65536) (hc2 : c2 < 65536)
    (h : mbSwap c = mbSwap c2) : c = c2 := by
  rw [mbSwap_eq c hc, mbSwap_eq c2 hc2] at h
  omega

theorem coveredBytes_lt (m : mb_msg) : ∀ x ∈ coveredBytes m, x < 256 := by
  intro x hx
  unfold coveredBytes at hx
  obtain ⟨i, _, rfl⟩ := List.mem_map.mp hx
  exact getByte_lt m i

theorem length_coveredBytes (m : mb_msg) : (coveredBytes m).length = m.len - 2 := by
  unfold coveredBytes
  simp

theorem mb_crc16_eq_fold (m : mb_msg) :
    mb_crc16 m = mbSwap ((coveredBytes m).foldl crc16_byte 0xffff) := by
  unfold mb_crc16 coveredBytes
  rw [List.foldl_map]

theorem mb_crc16_lt (m : mb_msg) : mb_crc16 m < 65536 := by
  rw [mb_crc16_eq_fold]
  exact mbSwap_lt _

theorem coveredBytes_congr (m1 m2 : mb_msg) (hlen : m1.len = m2.len)
    (hb : ∀ i, i < m1.len - 2 → m1.getByte i = m2.getByte i) :
    coveredBytes m1 = coveredBytes m2 := by
  unfold coveredBytes
  rw [← hlen]
  apply List.map_congr_left
  intro i hi
  exact hb i (List.mem_range.mp hi)

theorem mb_crc16_congr (m1 m2 : mb_msg) (hlen : m1.len = m2.len)
    (hb : ∀ i, i < m1.len - 2 → m1.getByte i = m2.getByte i) :
    mb_crc16 m1 = mb_crc16 m2 := by
  rw [mb_crc16_eq_fold, mb_crc16_eq_fold, coveredBytes_congr m1 m2 hlen hb]

theorem len_apply_crc16 (m : mb_msg) : (mb_apply_crc16 m).len = m.len := rfl

theorem getByte_apply_crc16 (m : mb_msg) (hlen : 2 ≤ m.len) (j : Nat) :
    (mb_apply_crc16 m).getByte j =
      if j = m.len - 1 then mb_crc16 m % 256
      else if j = m.len - 2 then mb_crc16 m / 256
      else m.getByte j := by
  unfold mb_apply_crc16
  rw [getByte_write_be16]
  have hc := mb_crc16_lt m
  have h1 : m.len - 2 + 1 = m.len - 1 := by omega
  rw [h1, Nat.mod_eq_of_lt hc]

theorem mb_crc16_apply_crc16 (m : mb_msg) (hlen : 2 ≤ m.len) :
    mb_crc16 (mb_apply_crc16 m) = mb_crc16 m := by
  apply mb_crc16_congr
  · rfl
  · intro i hi
    rw [len_apply_crc16] at hi
    rw [getByte_apply_crc16 m hlen]
    rw [if_neg (by omega), if_neg (by omega)]

theorem read_crc_apply_crc16 (m : mb_msg) (hlen : 2 ≤ m.len) :
    read_be16 (mb_apply_crc16 m) (m.len - 2) = mb_crc16 m := by
  rw [read_be16_eq]
  have h1 : m.len - 2 + 1 = m.len - 1 := by omega
  rw [h1, getByte_apply_crc16 m hlen, getByte_apply_crc16 m hlen]
  rw [if_neg (by omega), if_pos rfl, if_pos rfl]
  have hc := mb_crc16_lt m
  omega

theorem checkcrc_apply_crc16 (m : mb_msg) (hlen : 2 ≤ m.len) :
    mb_pa_resp_checkcrc (mb_apply_crc16 m) = MB_EOK := by
  unfold mb_pa_resp_checkcrc
  rw [if_neg (by rw [len_apply_crc16]; omega)]
  rw [len_apply_crc16, mb_crc16_apply_crc16 m hlen, read_crc_apply_crc16 m hlen]
  simp

theorem get_coveredBytes (m : mb_msg) (i : Nat) (h : i < (coveredBytes m).length) :
    (coveredBytes m).get ⟨i, h⟩ = m.getByte i := by
  unfold coveredBytes
  simp

theorem coveredBytes_setByte (m : mb_msg) (pos v : Nat) (hpos : pos < m.len - 2) :
    coveredBytes (m.setByte pos v) = (coveredBytes m).set pos (v % 256) := by
  apply List.ext_getElem
  · simp [length_coveredBytes, len_setByte, List.length_set]
  · intro i h1 h2
    simp only [coveredBytes, len_setByte, List.getElem_map, List.getElem_range,
      List.getElem_set]
    rw [getByte_setByte]
    by_cases h : i = pos
    · subst h
      simp
    · rw [if_neg h, if_neg (fun hc => h hc.symm)]

theorem flipBit_byte_lt (m : mb_msg) (pos k : Nat) (hk : k < 8) :
    m.getByte pos ^^^ (1 <<< k) < 256 := by
  have h1 : m.getByte pos < 2 ^ 8 := by
    have := getByte_lt m pos
    omega
  have h2 : (1 <<< k) < 2 ^ 8 := by
    rw [Nat.shiftLeft_eq, Nat.one_mul]
    exact Nat.pow_lt_pow_right (by norm_num) hk
  have := Nat.xor_lt_two_pow h1 h2
  omega

theorem flipBit_byte_ne (m : mb_msg) (pos k : Nat) :
    m.getByte pos ^^^ (1 <<< k) ≠ m.getByte pos := by
  intro h
  have h0 : m.getByte pos ^^^ (1 <<< k) = m.getByte pos ^^^ 0 := by
    rw [Nat.xor_zero]
    exact h
  have := Nat.xor_right_inj.mp h0
  have hpow : (0 : Nat) < 1 <<< k := by
    rw [Nat.shiftLeft_eq, Nat.one_mul]
    exact Nat.pos_pow_of_pos k (by norm_num)
  omega

theorem mb_crc16_flipBit_ne (m : mb_msg) (pos k : Nat) (hpos : pos < m.len - 2) (hk : k < 8) :
    mb_crc16 (flipBit m pos k) ≠ mb_crc16 m := by
  rw [mb_crc16_eq_fold, mb_crc16_eq_fold]
  intro h
  have hlt := crcFold_lt (coveredBytes m) 0xffff (by norm_num) (coveredBytes_lt m)
  have hflip : coveredBytes (flipBit m pos k) =
      (coveredBytes m).set pos (m.getByte pos ^^^ (1 <<< k)) := by
    unfold flipBit
    rw [coveredBytes_setByte m pos _ hpos,
      Nat.mod_eq_of_lt (flipBit_byte_lt m pos k hk)]
  have hlt2 := crcFold_lt ((coveredBytes m).set pos (m.getByte pos ^^^ (1 <<< k))) 0xffff
    (by norm_num) (by
      intro x hx
      rcases List.mem_or_eq_of_mem_set hx with hx2 | hx2
      · exact coveredBytes_lt m x hx2
      · rw [hx2]
        exact flipBit_byte_lt m pos k hk)
  rw [hflip] at h
  have heq := mbSwap_inj _ _ hlt2 hlt h
  have hposl : pos < (coveredBytes m).length := by
    rw [length_coveredBytes]
    exact hpos
  apply crcFold_set_ne (coveredBytes m) pos (m.getByte pos ^^^ (1 <<< k)) 0xffff
    (by norm_num) (coveredBytes_lt m) hposl (flipBit_byte_lt m pos k hk) _ heq
  rw [get_coveredBytes]
  exact flipBit_byte_ne m pos k

-- ## Parser-path lemmas

theorem mb_msg_setLen_self (m : mb_msg) (n : Nat) (h : m.len = n) :
    ({ m with len := n } : mb_msg) = m := by
  cases m
  simp only at h
  rw [h]

theorem len_flipBit (m : mb_msg) (pos k : Nat) : (flipBit m pos k).len = m.len := rfl

theorem getByte_flipBit_ne (m : mb_msg) (pos k j : Nat) (h : j ≠ pos) :
    (flipBit m pos k).getByte j = m.getByte j := by
  unfold flipBit
  rw [getByte_setByte, if_neg h]

theorem checkcrc_flipBit (m : mb_msg) (h2 : 2 ≤ m.len) (pos k : Nat)
    (hpos : pos < m.len - 2) (hk : k < 8) :
    mb_pa_resp_checkcrc (flipBit (mb_apply_crc16 m) pos k) = MB_EBADBUF := by
  have hlenM : (mb_apply_crc16 m).len = m.len := len_apply_crc16 m
  have hlenF : (flipBit (mb_apply_crc16 m) pos k).len = m.len := by
    rw [len_flipBit, hlenM]
  unfold mb_pa_resp_checkcrc
  rw [if_neg (by omega)]
  have hread : read_be16 (flipBit (mb_apply_crc16 m) pos k)
      ((flipBit (mb_apply_crc16 m) pos k).len - 2) = mb_crc16 m := by
    rw [hlenF, read_be16_eq,
      getByte_flipBit_ne _ _ _ _ (by omega), getByte_flipBit_ne _ _ _ _ (by omega)]
    have := read_crc_apply_crc16 m h2
    rw [read_be16_eq] at this
    omega
  rw [hread]
  have hne : mb_crc16 (flipBit (mb_apply_crc16 m) pos k) ≠ mb_crc16 m := by
    have h1 := mb_crc16_flipBit_ne (mb_apply_crc16 m) pos k (by omega) hk
    rw [mb_crc16_apply_crc16 m h2] at h1
    exact h1
  rw [if_pos hne]

/-- **C3**: for every message of length between 2 and the capacity
`MB_MAXMSGLEN`, applying `mb_apply_crc16` and then running
`mb_pa_resp_checkcrc` returns success; and if afterwards any single bit of
any byte of the covered region (all bytes except the trailing two) is
flipped, `mb_pa_resp_checkcrc` fails with `MB_EBADBUF`. -/
theorem C3_crc_roundtrip_and_bitflip_detection (m : mb_msg)
    (h2 : 2 ≤ m.len) (hcap : m.len ≤ MB_MAXMSGLEN) :
    mb_pa_resp_checkcrc (mb_apply_crc16 m) = MB_EOK ∧
    ∀ pos k, pos < m.len - 2 → k < 8 →
      mb_pa_resp_checkcrc (flipBit (mb_apply_crc16 m) pos k) = MB_EBADBUF :=
  ⟨checkcrc_apply_crc16 m h2,
   fun pos k hpos hk => checkcrc_flipBit m h2 pos k hpos hk⟩

/-- Witness for C3: a concrete 7-byte message, with the flip applied to
bit 0 of byte 0. -/
theorem C3_witness :
    (2 ≤ (⟨7, fun i => [1, 3, 2, 18, 52, 0, 0].getD i 0⟩ : mb_msg).len ∧
      (⟨7, fun i => [1, 3, 2, 18, 52, 0, 0].getD i 0⟩ : mb_msg).len ≤ MB_MAXMSGLEN) ∧
    mb_pa_resp_checkcrc (mb_apply_crc16 ⟨7, fun i => [1, 3, 2, 18, 52, 0, 0].getD i 0⟩) = MB_EOK ∧
    mb_pa_resp_checkcrc
      (flipBit (mb_apply_crc16 ⟨7, fun i => [1, 3, 2, 18, 52, 0, 0].getD i 0⟩) 0 0) = MB_EBADBUF :=
  ⟨⟨by decide, by decide⟩,
   (C3_crc_roundtrip_and_bitflip_detection _ (by decide) (by decide)).1,
   (C3_crc_roundtrip_and_bitflip_detection _ (by decide) (by decide)).2 0 0 (by decide) (by decide)⟩

theorem crc16_byte_eq_refRounds8 (c b : Nat) : crc16_byte c b = refRounds8 (c ^^^ b) := rfl

theorem refCrcList_eq_foldl (l : List Nat) (r : Nat) :
    refCrcList l r = l.foldl crc16_byte r := by
  induction l generalizing r with
  | nil => rfl
  | cons h t ih =>
    rw [refCrcList, List.foldl_cons, ih, crc16_byte_eq_refRounds8]

theorem mbSwap_eq_refSwap (c : Nat) (hc : c < 65536) : mbSwap c = refSwap c := by
  rw [mbSwap_eq c hc]
  rfl

/-- **C4**: `mb_crc16` equals the reference reflected CRC-16 (polynomial
0xA001, initial register 0xFFFF, per-byte XOR into the low byte followed by
8 test-shift-xor rounds, over all bytes except the trailing two, then a
high/low byte swap) as transcribed from the spec; and `mb_apply_crc16`
stores that value big-endian into the final two bytes, leaving the covered
region unchanged. -/
theorem C4_crc16_matches_reference (m : mb_msg) (h2 : 2 ≤ m.len) :
    mb_crc16 m = refCrc16 (coveredBytes m) ∧
    (mb_apply_crc16 m).getByte (m.len - 2) = mb_crc16 m / 256 ∧
    (mb_apply_crc16 m).getByte (m.len - 1) = mb_crc16 m % 256 ∧
    ∀ j, j < m.len - 2 → (mb_apply_crc16 m).getByte j = m.getByte j := by
  refine ⟨?_, ?_, ?_, ?_⟩
  · rw [mb_crc16_eq_fold]
    unfold refCrc16
    rw [refCrcList_eq_foldl]
    exact mbSwap_eq_refSwap _ (crcFold_lt _ _ (by norm_num) (coveredBytes_lt m))
  · rw [getByte_apply_crc16 m h2, if_neg (by omega), if_pos rfl]
  · rw [getByte_apply_crc16 m h2, if_pos rfl]
  · intro j hj
    rw [getByte_apply_crc16 m h2, if_neg (by omega), if_neg (by omega)]

/-- Witness for C4 at a concrete 4-byte message. -/
theorem C4_witness :
    2 ≤ (⟨4, fun i => [7, 8, 0, 0].getD i 0⟩ : mb_msg).len ∧
    mb_crc16 (⟨4, fun i => [7, 8, 0, 0].getD i 0⟩ : mb_msg) =
      refCrc16 (coveredBytes (⟨4, fun i => [7, 8, 0, 0].getD i 0⟩ : mb_msg)) :=
  ⟨by decide, (C4_crc16_matches_reference _ (by decide)).1⟩

theorem resp_fn_clear (M : mb_msg) (hlen : 2 ≤ M.len) (hhi : M.getByte 1 &&& 0x80 = 0) :
    mb_pa_resp_fn M = (MB_EOK, some (M.getByte 1)) := by
  simp only [mb_pa_resp_fn]
  rw [if_neg (by omega)]
  simp [hhi]

theorem resp_fn_device (M : mb_msg) (hlen : 3 ≤ M.len) (hhi : M.getByte 1 &&& 0x80 ≠ 0)
    (hec : M.getByte 2 &&& 0x80 = 0) :
    mb_pa_resp_fn M = (M.getByte 2 ||| 0x80, some (M.getByte 1 &&& 0x7F)) := by
  simp only [mb_pa_resp_fn]
  rw [if_neg (by omega), if_pos hhi, if_neg (by omega), if_neg (by omega)]

theorem resp_fn_emerr (M : mb_msg) (hlen : 3 ≤ M.len) (hhi : M.getByte 1 &&& 0x80 ≠ 0)
    (hec : M.getByte 2 &&& 0x80 ≠ 0) :
    mb_pa_resp_fn M = (MB_EMERR, some (M.getByte 1 &&& 0x7F)) := by
  simp only [mb_pa_resp_fn]
  rw [if_neg (by omega), if_pos hhi, if_neg (by omega), if_pos hec]

/-- **C5**: device-error decoding in `mb_pa_resp_fn`.  For a message of
length ≥ 3 whose function byte has the high bit set, the out-parameter
receives the low 7 bits of the function byte; the result is `MB_EMERR` when
the device error byte has its own high bit set, and `(error byte | 0x80)`
otherwise — in particular function byte 0x83 with error byte 0x02 yields
`MB_EE_ADDR`.  With the high bit clear the result is success and the
out-parameter receives the function byte. -/
theorem C5_resp_fn_device_error_decoding (M : mb_msg) :
    (3 ≤ M.len → M.getByte 1 &&& 0x80 ≠ 0 →
      (mb_pa_resp_fn M).2 = some (M.getByte 1 &&& 0x7F) ∧
      (mb_pa_resp_fn M).1 =
        (if M.getByte 2 &&& 0x80 ≠ 0 then MB_EMERR else M.getByte 2 ||| 0x80)) ∧
    (3 ≤ M.len → M.getByte 1 &&& 0x80 = 0 →
      mb_pa_resp_fn M = (MB_EOK, some (M.getByte 1))) ∧
    (3 ≤ M.len → M.getByte 1 = 0x83 → M.getByte 2 = 0x02 →
      (mb_pa_resp_fn M).1 = MB_EE_ADDR) := by
  refine ⟨?_, ?_, ?_⟩
  · intro hlen hhi
    by_cases hec : M.getByte 2 &&& 0x80 ≠ 0
    · rw [resp_fn_emerr M hlen hhi hec, if_pos hec]
      exact ⟨rfl, rfl⟩
    · rw [resp_fn_device M hlen hhi (by omega), if_neg hec]
      exact ⟨rfl, rfl⟩
  · intro hlen hlo
    exact resp_fn_clear M (by omega) hlo
  · intro hlen hfn hec
    rw [resp_fn_device M hlen (by rw [hfn]; decide) (by rw [hec]; decide), hec]
    show (2 ||| 128 : Nat) = MB_EE_ADDR
    decide

/-- Witness for C5: the frame `[01, 83, 02]` decodes to the invalid-address
device fault. -/
theorem C5_witness :
    3 ≤ (⟨3, fun i => [1, 0x83, 2].getD i 0⟩ : mb_msg).len ∧
    (mb_pa_resp_fn (⟨3, fun i => [1, 0x83, 2].getD i 0⟩ : mb_msg)).1 = MB_EE_ADDR :=
  ⟨by decide,
   (C5_resp_fn_device_error_decoding _).2.2 (by decide) (by decide) (by decide)⟩

/-- **C8**: `mb_setbuflen` fails with `MB_EMLONG` exactly when the requested
length exceeds the capacity `MB_MAXMSGLEN` (otherwise it sets the logical
length and succeeds), and `mb_respbuflen` fails with `MB_EMSHORT` exactly
when the requested length exceeds the current logical length (otherwise it
delegates to `mb_setbuflen`). -/
theorem C8_buflen_mutators (m : mb_msg) (n : Nat) :
    ((mb_setbuflen m n).1 = MB_EMLONG ↔ MB_MAXMSGLEN < n) ∧
    (n ≤ MB_MAXMSGLEN → mb_setbuflen m n = (MB_EOK, { m with len := n })) ∧
    ((mb_respbuflen m n).1 = MB_EMSHORT ↔ m.len < n) ∧
    (m.len < n → mb_respbuflen m n = (MB_EMSHORT, m)) ∧
    (n ≤ m.len → mb_respbuflen m n = mb_setbuflen m n) := by
  refine ⟨?_, ?_, ?_, ?_, ?_⟩
  · unfold mb_setbuflen MB_MAXMSGLEN
    split
    · rename_i h
      norm_num [MB_EOK, MB_EMLONG]
      omega
    · rename_i h
      norm_num [MB_EMLONG]
      omega
  · intro hp
    unfold mb_setbuflen
    rw [if_pos hp]
  · unfold mb_respbuflen
    split
    · rename_i h
      norm_num [MB_EMSHORT]
      exact h
    · rename_i h
      unfold mb_setbuflen
      split
      · norm_num [MB_EOK, MB_EMSHORT]
        omega
      · norm_num [MB_EMLONG, MB_EMSHORT]
        omega
  · intro hp
    unfold mb_respbuflen
    rw [if_pos hp]
  · intro hp
    unfold mb_respbuflen
    rw [if_neg (by omega)]

/-- Witness for C8: a 5-byte message shrunk to 3 bytes. -/
theorem C8_witness :
    3 ≤ (⟨5, fun i => [1, 2, 3, 4, 5].getD i 0⟩ : mb_msg).len ∧
    mb_respbuflen (⟨5, fun i => [1, 2, 3, 4, 5].getD i 0⟩ : mb_msg) 3 =
      mb_setbuflen (⟨5, fun i => [1, 2, 3, 4, 5].getD i 0⟩ : mb_msg) 3 :=
  ⟨by decide, (C8_buflen_mutators _ 3).2.2.2.2 (by decide)⟩

theorem req_write_frame (m : mb_msg) (a v : Nat) :
    mb_ct_req_write m a v =
      (MB_EOK, mb_apply_crc16 (write_be16 (write_be16
        ((({ m with len := 8 } : mb_msg).setByte 0 MB_SLAVEADDR).setByte 1 MB_FN_WRITE)
        2 a) 4 v)) := rfl

theorem req_write_bytes (m : mb_msg) (a v j : Nat) (ha : a < 65536) (hv : v < 65536) :
    (write_be16 (write_be16
        ((({ m with len := 8 } : mb_msg).setByte 0 MB_SLAVEADDR).setByte 1 MB_FN_WRITE)
        2 a) 4 v).getByte j =
      if j = 0 then MB_SLAVEADDR else if j = 1 then MB_FN_WRITE
      else if j = 2 then a / 256 else if j = 3 then a % 256
      else if j = 4 then v / 256 else if j = 5 then v % 256
      else m.getByte j := by
  rw [getByte_write_be16, getByte_write_be16, getByte_setByte, getByte_setByte,
    Nat.mod_eq_of_lt ha, Nat.mod_eq_of_lt hv]
  have hs : MB_SLAVEADDR % 256 = MB_SLAVEADDR := by decide
  have hw : MB_FN_WRITE % 256 = MB_FN_WRITE := by decide
  rw [hs, hw]
  split_ifs <;> first | rfl | omega

theorem resp_write_success (M : mb_msg) (hlen : M.len = 8) (hfn : M.getByte 1 = MB_FN_WRITE)
    (hcrc : mb_pa_resp_checkcrc M = MB_EOK) :
    mb_pa_resp_write M = (MB_EOK, M, some (read_be16 M 2), some (read_be16 M 4)) := by
  have hfn2 : mb_pa_resp_fn M = (MB_EOK, some MB_FN_WRITE) := by
    rw [← hfn]
    exact resp_fn_clear M (by omega) (by rw [hfn]; decide)
  have hresp : mb_respbuflen M 8 = (MB_EOK, M) := by
    unfold mb_respbuflen mb_setbuflen
    rw [if_neg (by omega), if_pos (by norm_num [MB_MAXMSGLEN]), mb_msg_setLen_self M 8 hlen]
  simp only [mb_pa_resp_write]
  rw [hfn2]
  simp only [ne_eq]
  norm_num [MB_EOK]
  rw [hresp]
  norm_num [hcrc, MB_EOK, MB_FN_WRITE]

/-- **C1**: for every address and value in [0, 0xFFFF] and every message
buffer, building a write-word request with `mb_ct_req_write` and parsing
the resulting frame (the write-word echo response has the identical layout)
with `mb_pa_resp_write` succeeds and returns exactly the address and value
that were encoded. -/
theorem C1_write_word_roundtrip (m : mb_msg) (a v : Nat)
    (ha : a ≤ 0xFFFF) (hv : v ≤ 0xFFFF) :
    (mb_ct_req_write m a v).1 = MB_EOK ∧
    (mb_pa_resp_write (mb_ct_req_write m a v).2).1 = MB_EOK ∧
    (mb_pa_resp_write (mb_ct_req_write m a v).2).2.2.1 = some a ∧
    (mb_pa_resp_write (mb_ct_req_write m a v).2).2.2.2 = some v := by
  have ha2 : a < 65536 := by omega
  have hv2 : v < 65536 := by omega
  rw [req_write_frame m a v]
  set W := write_be16 (write_be16
    ((({ m with len := 8 } : mb_msg).setByte 0 MB_SLAVEADDR).setByte 1 MB_FN_WRITE)
    2 a) 4 v with hW
  have hWlen : W.len = 8 := rfl
  have hMlen : (mb_apply_crc16 W).len = 8 := hWlen
  have hMfn : (mb_apply_crc16 W).getByte 1 = MB_FN_WRITE := by
    rw [getByte_apply_crc16 W (by omega), hWlen]
    rw [if_neg (by omega), if_neg (by omega), req_write_bytes m a v 1 ha2 hv2]
    norm_num
  have hMcrc := checkcrc_apply_crc16 W (by omega)
  have hparse := resp_write_success (mb_apply_crc16 W) hMlen hMfn hMcrc
  have hread2 : read_be16 (mb_apply_crc16 W) 2 = a := by
    rw [read_be16_eq, getByte_apply_crc16 W (by omega), getByte_apply_crc16 W (by omega), hWlen]
    rw [if_neg (by omega), if_neg (by omega), if_neg (by omega), if_neg (by omega)]
    rw [req_write_bytes m a v 2 ha2 hv2, req_write_bytes m a v 3 ha2 hv2]
    norm_num
    omega
  have hread4 : read_be16 (mb_apply_crc16 W) 4 = v := by
    rw [read_be16_eq, getByte_apply_crc16 W (by omega), getByte_apply_crc16 W (by omega), hWlen]
    rw [if_neg (by omega), if_neg (by omega), if_neg (by omega), if_neg (by omega)]
    rw [req_write_bytes m a v 4 ha2 hv2, req_write_bytes m a v 5 ha2 hv2]
    norm_num
    omega
  refine ⟨rfl, ?_, ?_, ?_⟩
  · rw [hparse]
  · rw [hparse]
    simp [hread2]
  · rw [hparse]
    simp [hread4]

/-- Witness for C1 at address 0x1234, value 0xBEEF, from a zeroed buffer. -/
theorem C1_witness :
    (0x1234 ≤ 0xFFFF ∧ 0xBEEF ≤ 0xFFFF) ∧
    (mb_pa_resp_write (mb_ct_req_write (⟨0, fun _ => 0⟩ : mb_msg) 0x1234 0xBEEF).2).2.2.1 =
      some 0x1234 :=
  ⟨⟨by decide, by decide⟩,
   (C1_write_word_roundtrip (⟨0, fun _ => 0⟩ : mb_msg) 0x1234 0xBEEF
     (by decide) (by decide)).2.2.1⟩

theorem lor_128_ne_zero (x : Nat) : x ||| 0x80 ≠ 0 := by
  intro h
  have hb : (x ||| 0x80).testBit 7 = true := by
    rw [Nat.testBit_or]
    have h128 : (0x80 : Nat).testBit 7 = true := by decide
    rw [h128, Bool.or_true]
  rw [h] at hb
  simp at hb

theorem readn_early (M : mb_msg) (words e : Nat) (fo : Option Nat)
    (hfn : mb_pa_resp_fn M = (e, fo)) (hne : e ≠ MB_EOK) :
    mb_pa_resp_readn M words = (e, M, none, []) := by
  simp only [mb_pa_resp_readn]
  rw [hfn]
  simp [hne]

theorem write_early (M : mb_msg) (e : Nat) (fo : Option Nat)
    (hfn : mb_pa_resp_fn M = (e, fo)) (hne : e ≠ MB_EOK) :
    mb_pa_resp_write M = (e, M, none, none) := by
  simp only [mb_pa_resp_write]
  rw [hfn]
  simp [hne]

theorem writen_early (M : mb_msg) (e : Nat) (fo : Option Nat)
    (hfn : mb_pa_resp_fn M = (e, fo)) (hne : e ≠ MB_EOK) :
    mb_pa_resp_writen M = (e, M, none, none) := by
  simp only [mb_pa_resp_writen]
  rw [hfn]
  simp [hne]

/-- **C10** (implicit): all three response parsers decode the function byte
before verifying the checksum, so on any message of length ≥ 3 whose
function byte has the high bit set and whose device error byte has the high
bit clear, `mb_pa_resp_readn`, `mb_pa_resp_write` and `mb_pa_resp_writen`
all return the device fault `(error byte | 0x80)` — no hypothesis about the
stored checksum is needed, so a corrupted-checksum frame still surfaces as
a clean device-reported fault. -/
theorem C10_device_fault_bypasses_crc (M : mb_msg) (words : Nat)
    (hlen : 3 ≤ M.len) (hhi : M.getByte 1 &&& 0x80 ≠ 0)
    (hec : M.getByte 2 &&& 0x80 = 0) :
    mb_pa_resp_readn M words = (M.getByte 2 ||| 0x80, M, none, []) ∧
    mb_pa_resp_write M = (M.getByte 2 ||| 0x80, M, none, none) ∧
    mb_pa_resp_writen M = (M.getByte 2 ||| 0x80, M, none, none) := by
  have hfn := resp_fn_device M hlen hhi hec
  have hne : M.getByte 2 ||| 0x80 ≠ MB_EOK := lor_128_ne_zero _
  exact ⟨readn_early M words _ _ hfn hne, write_early M _ _ hfn hne,
    writen_early M _ _ hfn hne⟩

/-- Witness for C10: the frame `[01, 83, 02, 00, 00]` carries an
error report and a checksum that is certainly wrong, yet parses as the
device fault 0x82. -/
theorem C10_witness :
    (3 ≤ (⟨5, fun i => [1, 0x83, 2, 0, 0].getD i 0⟩ : mb_msg).len ∧
      mb_pa_resp_checkcrc (⟨5, fun i => [1, 0x83, 2, 0, 0].getD i 0⟩ : mb_msg) = MB_EBADBUF) ∧
    mb_pa_resp_write (⟨5, fun i => [1, 0x83, 2, 0, 0].getD i 0⟩ : mb_msg) =
      (0x82, (⟨5, fun i => [1, 0x83, 2, 0, 0].getD i 0⟩ : mb_msg), none, none) :=
  ⟨⟨by decide, by decide⟩,
   (C10_device_fault_bypasses_crc (⟨5, fun i => [1, 0x83, 2, 0, 0].getD i 0⟩ : mb_msg) 0
     (by decide) (by decide) (by decide)).2.1⟩

theorem resp_readn_shape (M : mb_msg) (words : Nat)
    (hlen3 : 3 ≤ M.len) (hcap : M.len ≤ MB_MAXMSGLEN)
    (hfn : mb_is_fn_readn (M.getByte 1) = true)
    (hshrink : M.getByte 2 + 5 ≤ M.len)
    (hcrc : mb_pa_resp_checkcrc { M with len := M.getByte 2 + 5 } = MB_EOK)
    (heven : M.getByte 2 &&& 1 = 0) :
    mb_pa_resp_readn M words =
      (if words < M.getByte 2 / 2 then MB_EDLONG else MB_EOK,
       { M with len := M.getByte 2 + 5 }, some (M.getByte 2 / 2),
       (List.range (min words (M.getByte 2 / 2))).map
         (fun i => read_be16 ({ M with len := M.getByte 2 + 5 } : mb_msg) (3 + (i <<< 1)))) := by
  have hb1 : M.getByte 1 = 3 ∨ M.getByte 1 = 4 := by
    have h := hfn
    simp [mb_is_fn_readn, MB_FN_READN, MB_FN_READN_ALT] at h
    exact h
  have hhi : M.getByte 1 &&& 0x80 = 0 := by
    rcases hb1 with h | h
    · rw [h]
      decide
    · rw [h]
      decide
  have hfn2 := resp_fn_clear M (by omega) hhi
  have hresp : mb_respbuflen M (M.getByte 2 + 5) = (MB_EOK, { M with len := M.getByte 2 + 5 }) := by
    unfold mb_respbuflen mb_setbuflen
    rw [if_neg (by omega)]
    rw [if_pos (by unfold MB_MAXMSGLEN at hcap ⊢; omega)]
  simp only [mb_pa_resp_readn]
  rw [hfn2]
  simp only [ne_eq, Option.getD_some]
  norm_num [MB_EOK, hfn]
  rw [if_neg (by omega : ¬ M.len < 3), hresp]
  norm_num [hcrc, MB_EOK]
  have heven2 : M.getByte 2 % 2 = 0 := by
    rw [← Nat.and_one_is_mod]
    exact heven
  rw [if_neg (by omega)]
  by_cases h : words < M.getByte 2 / 2 <;> simp [h]

/-- **C6**: a valid read-words response reporting more words than requested
still copies the first `words` requested words, each decoded big-endian
from offset `3 + 2i`, sets the actual-count output to the reported count,
and returns the non-fatal `MB_EDLONG` rather than a hard failure. -/
theorem C6_readn_overflow_nonfatal (M : mb_msg) (words : Nat)
    (hlen3 : 3 ≤ M.len) (hcap : M.len ≤ MB_MAXMSGLEN)
    (hfn : mb_is_fn_readn (M.getByte 1) = true)
    (hshrink : M.getByte 2 + 5 ≤ M.len)
    (hcrc : mb_pa_resp_checkcrc { M with len := M.getByte 2 + 5 } = MB_EOK)
    (heven : M.getByte 2 &&& 1 = 0)
    (hover : words < M.getByte 2 / 2) :
    (mb_pa_resp_readn M words).1 = MB_EDLONG ∧
    (mb_pa_resp_readn M words).2.2.1 = some (M.getByte 2 / 2) ∧
    (mb_pa_resp_readn M words).2.2.2 =
      (List.range words).map (fun i => read_be16 M (3 + 2 * i)) := by
  rw [resp_readn_shape M words hlen3 hcap hfn hshrink hcrc heven]
  refine ⟨by simp [hover], rfl, ?_⟩
  simp only
  rw [min_eq_left (Nat.le_of_lt hover)]
  apply List.map_congr_left
  intro i hi
  have hidx : 3 + (i <<< 1) = 3 + 2 * i := by
    rw [Nat.shiftLeft_eq]
    ring
  rw [hidx]
  rfl

set_option maxRecDepth 40000 in
/-- Witness for C6: a 9-byte valid read response carrying 2 words, parsed
with a requested count of 1. -/
theorem C6_witness :
    (3 ≤ (⟨9, fun i => [1, 3, 4, 0, 7, 0, 9, 139, 244].getD i 0⟩ : mb_msg).len ∧
      mb_pa_resp_checkcrc { (⟨9, fun i => [1, 3, 4, 0, 7, 0, 9, 139, 244].getD i 0⟩ : mb_msg)
        with len := (⟨9, fun i => [1, 3, 4, 0, 7, 0, 9, 139, 244].getD i 0⟩ : mb_msg).getByte 2 + 5 }
        = MB_EOK) ∧
    (mb_pa_resp_readn (⟨9, fun i => [1, 3, 4, 0, 7, 0, 9, 139, 244].getD i 0⟩ : mb_msg) 1).1 =
      MB_EDLONG :=
  ⟨⟨by decide, by decide⟩,
   (C6_readn_overflow_nonfatal (⟨9, fun i => [1, 3, 4, 0, 7, 0, 9, 139, 244].getD i 0⟩ : mb_msg) 1
     (by decide) (by decide) (by decide) (by decide) (by decide) (by decide) (by decide)).1⟩

theorem len_foldl_write_be16 (vals : Nat → Nat) (l : List Nat) (b : mb_msg) :
    (l.foldl (fun b i => write_be16 b (7 + (i <<< 1)) (vals i)) b).len = b.len := by
  induction l generalizing b with
  | nil => rfl
  | cons h t ih =>
    rw [List.foldl_cons, ih]
    rfl

theorem getByte_lt7_foldl_write_be16 (vals : Nat → Nat) (l : List Nat) (b : mb_msg) (j : Nat)
    (hj : j < 7) :
    (l.foldl (fun b i => write_be16 b (7 + (i <<< 1)) (vals i)) b).getByte j = b.getByte j := by
  induction l generalizing b with
  | nil => rfl
  | cons h t ih =>
    rw [List.foldl_cons, ih, getByte_write_be16, if_neg (by omega), if_neg (by omega)]

theorem req_writen_frame (m : mb_msg) (addr : Nat) (vals : Nat → Nat) :
    mb_ct_req_writen m addr 80 (some vals) =
      (MB_EOK, mb_apply_crc16 ((List.range 80).foldl
        (fun b i => write_be16 b (7 + (i <<< 1)) (vals i))
        ((write_be16 (write_be16
          ((({ m with len := 9 + (80 <<< 1) } : mb_msg).setByte 0 MB_SLAVEADDR).setByte
            1 MB_FN_WRITEN) 2 addr) 4 80).setByte 6 (80 <<< 1)))) := rfl

/-- **C7**: `mb_ct_req_writen` with 80 words succeeds, producing a frame of
length `9 + 2*80` whose byte-count byte (offset 6) is `2*80`; any word
count above 80 fails with `MB_EDLONG`; an absent values array fails with
`MB_EINVAL`. -/
theorem C7_writen_boundary (m : mb_msg) (addr w : Nat) (vals : Nat → Nat) :
    ((mb_ct_req_writen m addr 80 (some vals)).1 = MB_EOK ∧
     (mb_ct_req_writen m addr 80 (some vals)).2.len = 9 + 2 * 80 ∧
     (mb_ct_req_writen m addr 80 (some vals)).2.getByte 6 = 2 * 80) ∧
    (80 < w → (mb_ct_req_writen m addr w (some vals)).1 = MB_EDLONG) ∧
    (mb_ct_req_writen m addr w none).1 = MB_EINVAL := by
  set F := (List.range 80).foldl (fun b i => write_be16 b (7 + (i <<< 1)) (vals i))
      ((write_be16 (write_be16
        ((({ m with len := 9 + (80 <<< 1) } : mb_msg).setByte 0 MB_SLAVEADDR).setByte
          1 MB_FN_WRITEN) 2 addr) 4 80).setByte 6 (80 <<< 1)) with hF
  have hlen : F.len = 169 := by
    rw [hF, len_foldl_write_be16]
    rfl
  refine ⟨⟨?_, ?_, ?_⟩, ?_, rfl⟩
  · rw [req_writen_frame]
  · have h1 : (mb_ct_req_writen m addr 80 (some vals)).2.len = (mb_apply_crc16 F).len := by
      rw [req_writen_frame]
    rw [h1, len_apply_crc16, hlen]
  · have h1 : (mb_ct_req_writen m addr 80 (some vals)).2.getByte 6 =
        (mb_apply_crc16 F).getByte 6 := by
      rw [req_writen_frame]
    rw [h1, getByte_apply_crc16 F (by omega), hlen, if_neg (by omega), if_neg (by omega), hF,
      getByte_lt7_foldl_write_be16 _ _ _ 6 (by omega), getByte_setByte, if_pos rfl]
    decide
  · intro hw
    simp only [mb_ct_req_writen]
    rw [if_pos (by omega : w > 80)]

/-- Witness for C7: word count 81 from a zeroed buffer is rejected. -/
theorem C7_witness :
    80 < 81 ∧
    (mb_ct_req_writen (⟨0, fun _ => 0⟩ : mb_msg) 0 81 (some (fun _ => 0))).1 = MB_EDLONG :=
  ⟨by decide,
   (C7_writen_boundary (⟨0, fun _ => 0⟩ : mb_msg) 0 81 (fun _ => 0)).2.1 (by decide)⟩

theorem setbuflen_capacity (m : mb_msg) (n : Nat) (hm : m.len ≤ MB_MAXMSGLEN) :
    (mb_setbuflen m n).2.len ≤ MB_MAXMSGLEN := by
  unfold mb_setbuflen
  split
  · rename_i h
    exact h
  · exact hm

theorem respbuflen_capacity (m : mb_msg) (n : Nat) (hm : m.len ≤ MB_MAXMSGLEN) :
    (mb_respbuflen m n).2.len ≤ MB_MAXMSGLEN := by
  unfold mb_respbuflen
  split
  · exact hm
  · exact setbuflen_capacity m n hm

theorem readn_parser_capacity (m : mb_msg) (words : Nat) (hm : m.len ≤ MB_MAXMSGLEN) :
    (mb_pa_resp_readn m words).2.1.len ≤ MB_MAXMSGLEN := by
  unfold mb_pa_resp_readn
  split
  split
  · exact hm
  split
  · exact hm
  split
  · exact hm
  dsimp only
  have hb2 := respbuflen_capacity m (m.getByte 2 + 5) hm
  split
  · exact hb2
  split
  · exact hb2
  split
  · exact hb2
  split
  · exact hb2
  · exact hb2

theorem write_parser_capacity (m : mb_msg) (hm : m.len ≤ MB_MAXMSGLEN) :
    (mb_pa_resp_write m).2.1.len ≤ MB_MAXMSGLEN := by
  unfold mb_pa_resp_write
  split
  split
  · exact hm
  split
  · exact hm
  dsimp only
  have hb2 := respbuflen_capacity m 8 hm
  split
  · exact hb2
  split
  · exact hb2
  · exact hb2

theorem writen_parser_capacity (m : mb_msg) (hm : m.len ≤ MB_MAXMSGLEN) :
    (mb_pa_resp_writen m).2.1.len ≤ MB_MAXMSGLEN := by
  unfold mb_pa_resp_writen
  split
  split
  · exact hm
  split
  · exact hm
  dsimp only
  have hb2 := respbuflen_capacity m 8 hm
  split
  · exact hb2
  split
  · exact hb2
  · exact hb2

theorem readn_builder_capacity (m : mb_msg) (addr words : Nat) (hm : m.len ≤ MB_MAXMSGLEN) :
    (mb_ct_req_readn m addr words).2.len ≤ MB_MAXMSGLEN := by
  unfold mb_ct_req_readn
  split
  · exact hm
  · exact (by decide : (8 : Nat) ≤ MB_MAXMSGLEN)

theorem write_builder_capacity (m : mb_msg) (addr val : Nat) (hm : m.len ≤ MB_MAXMSGLEN) :
    (mb_ct_req_write m addr val).2.len ≤ MB_MAXMSGLEN :=
  (by decide : (8 : Nat) ≤ MB_MAXMSGLEN)

theorem writen_builder_capacity (m : mb_msg) (addr words : Nat) (vals : Option (Nat → Nat))
    (hm : m.len ≤ MB_MAXMSGLEN) :
    (mb_ct_req_writen m addr words vals).2.len ≤ MB_MAXMSGLEN := by
  rcases vals with _ | vs
  · exact hm
  · unfold mb_ct_req_writen
    dsimp only
    split
    · exact hm
    rename_i hw
    have h2 : 9 + (words <<< 1) ≤ MB_MAXMSGLEN := by
      rw [Nat.shiftLeft_eq]
      unfold MB_MAXMSGLEN
      omega
    unfold mb_setbuflen
    rw [if_pos h2]
    dsimp only
    rw [if_neg (fun hc => hc rfl), len_apply_crc16, len_foldl_write_be16]
    exact h2

/-- **C9**: every builder and parser operation preserves the capacity
invariant — if the message's logical length is at most `MB_MAXMSGLEN`
before the call, it still is after the call, whatever result code the call
returns. -/
theorem C9_capacity_invariant (m : mb_msg) (addr val words : Nat)
    (vals : Option (Nat → Nat)) (hm : m.len ≤ MB_MAXMSGLEN) :
    (mb_ct_req_readn m addr words).2.len ≤ MB_MAXMSGLEN ∧
    (mb_ct_req_write m addr val).2.len ≤ MB_MAXMSGLEN ∧
    (mb_ct_req_writen m addr words vals).2.len ≤ MB_MAXMSGLEN ∧
    (mb_pa_resp_readn m words).2.1.len ≤ MB_MAXMSGLEN ∧
    (mb_pa_resp_write m).2.1.len ≤ MB_MAXMSGLEN ∧
    (mb_pa_resp_writen m).2.1.len ≤ MB_MAXMSGLEN :=
  ⟨readn_builder_capacity m addr words hm, write_builder_capacity m addr val hm,
   writen_builder_capacity m addr words vals hm, readn_parser_capacity m words hm,
   write_parser_capacity m hm, writen_parser_capacity m hm⟩

/-- Witness for C9 at a concrete 5-byte message. -/
theorem C9_witness :
    (⟨5, fun _ => 0⟩ : mb_msg).len ≤ MB_MAXMSGLEN ∧
    (mb_pa_resp_write (⟨5, fun _ => 0⟩ : mb_msg)).2.1.len ≤ MB_MAXMSGLEN :=
  ⟨by decide,
   (C9_capacity_invariant (⟨5, fun _ => 0⟩ : mb_msg) 0 0 0 none (by decide)).2.2.2.2.1⟩

theorem frexpQ_halve (f : Nat) (q : ℚ) (e : Int) (h : 1 ≤ q) :
    frexpQ (f + 1) q e = frexpQ f (q / 2) (e + 1) := by
  have h2 : ¬ q < 1 / 2 := by intro hc; nlinarith
  rw [frexpQ, if_neg h2, if_pos h]

theorem frexpQ_stop (f : Nat) (q : ℚ) (e : Int) (h1 : 1 / 2 ≤ q) (h2 : q < 1) :
    frexpQ (f + 1) q e = (q, e) := by
  have h3 : ¬ q < 1 / 2 := not_lt.mpr h1
  have h4 : ¬ 1 ≤ q := not_le.mpr h2
  rw [frexpQ, if_neg h3, if_neg h4]

theorem frexpQ_one : frexpQ 160 1 0 = (1/2, 1) := by
  rw [frexpQ_halve _ _ _ (by norm_num), frexpQ_stop _ _ _ (by norm_num) (by norm_num)]
  norm_num

theorem frexpQ_100 : frexpQ 160 (401/4) 0 = (401/512, 7) := by
  rw [frexpQ_halve _ _ _ (by norm_num), frexpQ_halve _ _ _ (by norm_num),
    frexpQ_halve _ _ _ (by norm_num), frexpQ_halve _ _ _ (by norm_num),
    frexpQ_halve _ _ _ (by norm_num), frexpQ_halve _ _ _ (by norm_num),
    frexpQ_halve _ _ _ (by norm_num), frexpQ_stop _ _ _ (by norm_num) (by norm_num)]
  norm_num

theorem floatFrexp_one : floatFrexp 1 = (1/2, 1) := by
  simp only [floatFrexp]
  rw [if_neg (by norm_num)]
  norm_num [frexpQ_one]

theorem floatFrexp_neg100 : floatFrexp (-(401/4 : ℚ)) = (-(401/512 : ℚ), 7) := by
  simp only [floatFrexp]
  rw [if_neg (by norm_num)]
  have habs : |(-(401/4 : ℚ))| = 401/4 := by norm_num
  rw [habs, frexpQ_100]
  norm_num

theorem write_float_one : mb_write_float 1 = [0, 0, 63, 128] := by
  simp only [mb_write_float, floatFrexp_one]
  have hm : uint32OfFloat ⌊((1:ℚ)/2 : ℚ) * ((2 ^ 24 : Nat) : ℚ)⌋ = 8388608 := by
    rw [show ((1:ℚ)/2 : ℚ) * ((2 ^ 24 : Nat) : ℚ) = ((8388608 : ℤ) : ℚ) by norm_num,
      Int.floor_intCast]
    decide
  norm_num [hm]
  decide

theorem write_float_neg100 : mb_write_float (-(401/4 : ℚ)) = [128, 0, 194, 183] := by
  simp only [mb_write_float, floatFrexp_neg100]
  have hm : uint32OfFloat ⌊(-(401/512 : ℚ)) * ((2 ^ 24 : Nat) : ℚ)⌋ = 4281827328 := by
    rw [show (-(401/512 : ℚ)) * ((2 ^ 24 : Nat) : ℚ) = ((-13139968 : ℤ) : ℚ) by norm_num,
      Int.floor_intCast]
    decide
  norm_num [hm]
  decide

theorem read_float_one : mb_read_float [0, 0, 63, 128] = 1 := by
  simp only [mb_read_float, List.getD]
  norm_num
  rw [if_pos (by decide : (63 &&& 128 : Nat) = 0)]
  rw [show (1 <<< 23 ||| (128 &&& 127) <<< 16 : Nat) = 8388608 from by decide]
  rw [show ((63 &&& 127) <<< 1 ||| 128 >>> 7 % 2 : Nat) = 127 from by decide]
  rw [show int8wrap ((127 : Nat) - 127 : Int) = 0 from by decide]
  norm_num [pow2]
  rw [show Int.toNat 23 = 23 from rfl]
  norm_num

theorem read_float_neg100 : mb_read_float [128, 0, 194, 183] = -(367/4 : ℚ) := by
  simp only [mb_read_float, List.getD]
  norm_num
  rw [if_neg (by decide : ¬ (194 &&& 128 : Nat) = 0)]
  rw [show (1 <<< 23 ||| (183 &&& 127) <<< 16 ||| 128 <<< 8 : Nat) = 12025856 from by decide]
  rw [show ((194 &&& 127) <<< 1 ||| 183 >>> 7 % 2 : Nat) = 133 from by decide]
  rw [show int8wrap ((133 : Nat) - 127 : Int) = 6 from by decide]
  norm_num [pow2]
  rw [show Int.toNat 17 = 17 from rfl]
  norm_num

/-- **C2** (evaluated at the claim's test values): the positive round-trip
is exact — decoding the encoding of `1.0` returns exactly `1.0` — but for
`-100.25` the code is wrong: `frexpf` keeps the sign of its argument, so
`floor(fm*(1<<24))` is negative and its conversion to `uint32_t` (undefined
behaviour in ISO C; the two's-complement wrap produced by mainstream
compilers is modelled here) complements mantissa bits 16–22 of the frame.
Decoding the resulting bytes yields exactly `-91.75`, not `-100.25`. -/
theorem C2_float_roundtrip_evaluation :
    mb_read_float (mb_write_float 1) = 1 ∧
    mb_read_float (mb_write_float (-(401/4 : ℚ))) = -(367/4 : ℚ) ∧
    -(367/4 : ℚ) ≠ -(401/4 : ℚ) := by
  refine ⟨?_, ?_, by norm_num⟩
  · rw [write_float_one, read_float_one]
  · rw [write_float_neg100, read_float_neg100]
